import Mathlib

/-!
Shallow embedding of the hifitime core instant module (src/instant.rs).

The module represents a point on the TAI timeline as an era tag
(Past / Present, i.e. before / after the epoch of 01 Jan 1900) together
with a nonnegative duration (whole seconds plus a nanosecond fraction).

Modelling conventions:
* the unsigned seconds counter of std::time::Duration is modelled as Nat
  (the spec describes it as an unsigned 64-bit-or-wider integer); the
  nanosecond fraction is a Nat kept below NANOS_PER_SEC by the Duration
  constructor, exactly as std::time::Duration::new normalizes it;
* a panic of the Rust code (unsigned integer subtraction underflow in a
  debug build, or the panicking subtraction of std::time::Duration) is
  modelled by returning none, so the fallible operators return Option;
* the f64 arithmetic of Instant::sub(Instant) and
  Instant::from_precise_seconds is modelled exactly over the rationals,
  with the Rust semantics of f64::round (round half away from zero) and
  of the saturating float-to-unsigned casts made explicit.
-/

/-- Number of nanoseconds in one second (the NANOS_PER_SEC constant of
std::time::Duration). -/
def NANOS_PER_SEC : Nat := 1000000000

/-- An Era tags an Instant as before the TAI epoch (Past) or at/after it
(Present); src/instant.rs declares it with derive(PartialEq, PartialOrd),
so Past is ordered strictly below Present. -/
inductive Era where
  | Past
  | Present
deriving DecidableEq, Repr

/-- The comparison on Era produced by derive(PartialOrd): discriminant
order, Past < Present. -/
def Era.cmp : Era → Era → Ordering
  | Era.Past, Era.Past => Ordering.eq
  | Era.Past, Era.Present => Ordering.lt
  | Era.Present, Era.Past => Ordering.gt
  | Era.Present, Era.Present => Ordering.eq

/-- std::time::Duration: a count of whole seconds plus a nanosecond
fraction; every Duration built by the constructor below has
nanos < NANOS_PER_SEC. -/
structure Duration where
  secs : Nat
  nanos : Nat
deriving DecidableEq, Repr

/-- Duration::new: excess nanoseconds are carried into whole seconds. -/
def Duration.new (secs nanos : Nat) : Duration :=
  ⟨secs + nanos / NANOS_PER_SEC, nanos % NANOS_PER_SEC⟩

/-- Duration::as_secs. -/
def Duration.as_secs (d : Duration) : Nat := d.secs

/-- Duration::subsec_nanos. -/
def Duration.subsec_nanos (d : Duration) : Nat := d.nanos

/-- The exact value of a Duration, in nanoseconds. -/
def Duration.toNanos (d : Duration) : Nat := d.secs * NANOS_PER_SEC + d.nanos

/-- The exact value of the f64 expression
as_secs() as f64 + subsec_nanos() as f64 * 1e-9, as a rational. -/
def Duration.toSecsQ (d : Duration) : ℚ :=
  (d.secs : ℚ) + (d.nanos : ℚ) * (1 / 1000000000)

/-- impl Add for std::time::Duration: componentwise sum with the
nanosecond carry performed by the constructor. -/
def Duration.add (a b : Duration) : Duration :=
  Duration.new (a.secs + b.secs) (a.nanos + b.nanos)

/-- impl Sub for std::time::Duration: subtraction with borrow; panics
(none) when the subtrahend exceeds the minuend. -/
def Duration.sub? (a b : Duration) : Option Duration :=
  if a.secs < b.secs then none
  else if b.nanos ≤ a.nanos then some ⟨a.secs - b.secs, a.nanos - b.nanos⟩
  else if a.secs - b.secs = 0 then none
  else some ⟨a.secs - b.secs - 1, a.nanos + NANOS_PER_SEC - b.nanos⟩

/-- The comparison on Duration used by its derived ordering:
lexicographic on (secs, nanos). -/
def Duration.cmp (a b : Duration) : Ordering :=
  if a.secs < b.secs then Ordering.lt
  else if b.secs < a.secs then Ordering.gt
  else if a.nanos < b.nanos then Ordering.lt
  else if b.nanos < a.nanos then Ordering.gt
  else Ordering.eq

/-- An Instant of src/instant.rs: an Era together with the Duration
offset from the TAI epoch. The field order (era first) is the one the
derived PartialOrd compares. -/
structure Instant where
  era : Era
  duration : Duration
deriving DecidableEq, Repr

/-- Instant::new. -/
def Instant.new (seconds : Nat) (nanos : Nat) (era : Era) : Instant :=
  ⟨era, Duration.new seconds nanos⟩

/-- Instant::secs. -/
def Instant.secs (i : Instant) : Nat := i.duration.as_secs

/-- Instant::nanos. -/
def Instant.nanos (i : Instant) : Nat := i.duration.subsec_nanos

/-- impl PartialEq for Instant: the spans (secs, nanos) must match, and
the eras must match too unless both instants are exactly zero. -/
def Instant.beq (a b : Instant) : Bool :=
  let spans_eq := decide (a.secs = b.secs) && decide (a.nanos = b.nanos)
  if spans_eq && decide (a.secs = 0) && decide (a.nanos = 0) then true
  else spans_eq && decide (a.era = b.era)

/-- The comparison produced by derive(PartialOrd) on Instant: fields in
declaration order, era first, then duration. -/
def Instant.cmp (a b : Instant) : Ordering :=
  match Era.cmp a.era b.era with
  | Ordering.eq => Duration.cmp a.duration b.duration
  | o => o

/-- The strict less-than of the derived PartialOrd on Instant. -/
def Instant.ltb (a b : Instant) : Bool := decide (Instant.cmp a b = Ordering.lt)

/-- The strict greater-than of the derived PartialOrd on Instant. -/
def Instant.gtb (a b : Instant) : Bool := decide (Instant.cmp a b = Ordering.gt)

/-- Unsigned machine subtraction as it behaves in the Rust code: an
underflow is a panic, modelled as none. -/
def checkedSub (a b : Nat) : Option Nat := if a < b then none else some (a - b)

/-- impl Add(Duration) for Instant (Instant::add). The branch guard is
transcribed literally from the source; the two unsigned component
subtractions of the era-flip branch and the Duration subtraction of the
stay-in-Past branch are the fallible steps. -/
def Instant.add (self : Instant) (delta : Duration) : Option Instant :=
  if delta.as_secs = 0 ∧ delta.subsec_nanos = 0 then some self
  else
    match self.era with
    | Era.Past =>
      if (delta.as_secs ≥ self.duration.as_secs)
          ∨ (delta.as_secs ≥ self.duration.as_secs
              ∧ delta.as_secs = 0
              ∧ delta.subsec_nanos ≥ self.duration.subsec_nanos) then
        do
          let s ← checkedSub delta.as_secs self.duration.as_secs
          let n ← checkedSub delta.subsec_nanos self.duration.subsec_nanos
          pure (Instant.new s n Era.Present)
      else
        (Duration.sub? self.duration delta).map (fun d => ⟨Era.Past, d⟩)
    | Era.Present => some ⟨Era.Present, self.duration.add delta⟩

/-- impl Sub(Duration) for Instant (Instant::sub), the mirror image of
Instant::add with the era roles swapped. -/
def Instant.sub (self : Instant) (delta : Duration) : Option Instant :=
  if delta.as_secs = 0 ∧ delta.subsec_nanos = 0 then some self
  else
    match self.era with
    | Era.Past => some ⟨Era.Past, self.duration.add delta⟩
    | Era.Present =>
      if (delta.as_secs ≥ self.duration.as_secs)
          ∨ (delta.as_secs ≥ self.duration.as_secs
              ∧ delta.as_secs = 0
              ∧ delta.subsec_nanos ≥ self.duration.subsec_nanos) then
        do
          let s ← checkedSub delta.as_secs self.duration.as_secs
          let n ← checkedSub delta.subsec_nanos self.duration.subsec_nanos
          pure (Instant.new s n Era.Past)
      else
        (Duration.sub? self.duration delta).map (fun d => ⟨Era.Present, d⟩)

/-- impl Sub(Instant) for Instant: the signed seconds delta, an f64 in
the source, modelled exactly as a rational; the Duration subtractions
panic (none) on underflow. -/
def Instant.subInstant (self other : Instant) : Option ℚ :=
  if Instant.beq self other then some 0
  else if self.era = other.era then do
    let delta_secs ←
      if Instant.gtb self other then
        (Duration.sub? self.duration other.duration).map Duration.toSecsQ
      else
        (Duration.sub? other.duration self.duration).map
          (fun d => -1 * d.toSecsQ)
    pure (if self.era = Era.Past then -1 * delta_secs else delta_secs)
  else
    let delta := self.duration.add other.duration
    let delta_secs := delta.toSecsQ
    some (if other.era = Era.Present then -1 * delta_secs else delta_secs)

/-- f64::round on a rational: round half away from zero. -/
def roundQ (q : ℚ) : ℤ := if 0 ≤ q then ⌊q + 1 / 2⌋ else -⌊-q + 1 / 2⌋

/-- The Rust cast of an f64 value to u64: truncation toward zero,
saturating at the bounds of the type. -/
def castU64 (q : ℚ) : Nat := if q < 0 then 0 else min (⌊q⌋.toNat) (2 ^ 64 - 1)

/-- The Rust cast of an integral f64 value to u32: saturating at the
bounds of the type. -/
def castU32 (z : ℤ) : Nat := if z < 0 then 0 else min z.toNat (2 ^ 32 - 1)

/-- Instant::from_precise_seconds, with the f64 arithmetic modelled
exactly over the rationals: the seconds argument is rounded to the
nearest whole second, the remainder (possibly negative) is scaled to
nanoseconds and rounded, and the two casts truncate/saturate as the
source's as-casts do. -/
def Instant.from_precise_seconds (seconds : ℚ) (era : Era) : Instant :=
  let secs_u : ℤ := roundQ seconds
  let nanos : ℚ := (seconds - (secs_u : ℚ)) * 1e9
  ⟨era, Duration.new (castU64 seconds) (castU32 (roundQ nanos))⟩

example : Instant.add (Instant.new 159 10 Era.Present) (Duration.new 5 2) =
    some (Instant.new 164 12 Era.Present) := by decide

example : Instant.add (Instant.new 159 10 Era.Past) (Duration.new 5 2) =
    some (Instant.new 154 8 Era.Past) := by decide

example : Instant.add (Instant.new 159 0 Era.Past) (Duration.new 160 0) =
    some (Instant.new 1 0 Era.Present) := by decide

example : Instant.add (Instant.new 0 5 Era.Past) (Duration.new 0 6) =
    some (Instant.new 0 1 Era.Present) := by decide

example : Instant.sub (Instant.new 159 10 Era.Present) (Duration.new 5 2) =
    some (Instant.new 154 8 Era.Present) := by decide

example : Instant.sub (Instant.new 159 10 Era.Past) (Duration.new 5 2) =
    some (Instant.new 164 12 Era.Past) := by decide

example : Instant.sub (Instant.new 159 0 Era.Present) (Duration.new 160 0) =
    some (Instant.new 1 0 Era.Past) := by decide

example : Instant.sub (Instant.new 0 5 Era.Present) (Duration.new 0 6) =
    some (Instant.new 0 1 Era.Past) := by decide

lemma Duration.new_nanos_lt (s n : Nat) : (Duration.new s n).nanos < NANOS_PER_SEC := by
  simp only [Duration.new]
  exact Nat.mod_lt _ (by norm_num [NANOS_PER_SEC])

lemma Duration.new_toNanos (s n : Nat) :
    (Duration.new s n).toNanos = s * NANOS_PER_SEC + n := by
  simp only [Duration.new, Duration.toNanos, NANOS_PER_SEC]
  omega

lemma Duration.toNanos_lt_iff {a b : Duration} (ha : a.nanos < NANOS_PER_SEC)
    (hb : b.nanos < NANOS_PER_SEC) :
    a.toNanos < b.toNanos ↔ (a.secs < b.secs ∨ (a.secs = b.secs ∧ a.nanos < b.nanos)) := by
  simp only [Duration.toNanos, NANOS_PER_SEC] at *
  omega

lemma Duration.cmp_lt_iff (a b : Duration) :
    Duration.cmp a b = Ordering.lt ↔
      (a.secs < b.secs ∨ (a.secs = b.secs ∧ a.nanos < b.nanos)) := by
  unfold Duration.cmp
  split_ifs <;> simp <;> omega

lemma Duration.cmp_gt_iff (a b : Duration) :
    Duration.cmp a b = Ordering.gt ↔
      (b.secs < a.secs ∨ (b.secs = a.secs ∧ b.nanos < a.nanos)) := by
  unfold Duration.cmp
  split_ifs <;> simp <;> omega

lemma Duration.cmp_eq_iff (a b : Duration) :
    Duration.cmp a b = Ordering.eq ↔ (a.secs = b.secs ∧ a.nanos = b.nanos) := by
  unfold Duration.cmp
  split_ifs <;> simp <;> omega

@[simp] lemma Instant.secs_def (i : Instant) : i.secs = i.duration.secs := rfl

@[simp] lemma Instant.nanos_def (i : Instant) : i.nanos = i.duration.nanos := rfl

lemma Instant.ltb_iff (a b : Instant) :
    Instant.ltb a b = true ↔
      ((a.era = Era.Past ∧ b.era = Era.Present) ∨
        (a.era = b.era ∧ Duration.cmp a.duration b.duration = Ordering.lt)) := by
  obtain ⟨ae, ad⟩ := a
  obtain ⟨be, bd⟩ := b
  cases ae <;> cases be <;>
    simp [Instant.ltb, Instant.cmp, Era.cmp]

lemma Instant.gtb_iff (a b : Instant) :
    Instant.gtb a b = true ↔
      ((a.era = Era.Present ∧ b.era = Era.Past) ∨
        (a.era = b.era ∧ Duration.cmp a.duration b.duration = Ordering.gt)) := by
  obtain ⟨ae, ad⟩ := a
  obtain ⟨be, bd⟩ := b
  cases ae <;> cases be <;>
    simp [Instant.gtb, Instant.cmp, Era.cmp]

lemma Instant.beq_iff (a b : Instant) :
    Instant.beq a b = true ↔
      (a.secs = b.secs ∧ a.nanos = b.nanos ∧
        ((a.secs = 0 ∧ a.nanos = 0) ∨ a.era = b.era)) := by
  unfold Instant.beq
  by_cases h1 : a.duration.secs = b.duration.secs <;>
    by_cases h2 : a.duration.nanos = b.duration.nanos <;>
    by_cases h3 : a.duration.secs = 0 <;>
    by_cases h4 : a.duration.nanos = 0 <;>
    simp [h1, h2, h3, h4] <;> tauto

lemma Instant.beq_refl (a : Instant) : Instant.beq a a = true := by
  rw [Instant.beq_iff]
  exact ⟨rfl, rfl, Or.inr rfl⟩

lemma Instant.beq_true_symm {a b : Instant} (h : Instant.beq a b = true) :
    Instant.beq b a = true := by
  rw [Instant.beq_iff] at h ⊢
  obtain ⟨h1, h2, h3⟩ := h
  refine ⟨h1.symm, h2.symm, ?_⟩
  rcases h3 with h | h
  · exact Or.inl ⟨h1.symm.trans h.1, h2.symm.trans h.2⟩
  · exact Or.inr h.symm

lemma Instant.beq_false_symm {a b : Instant} (h : Instant.beq a b = false) :
    Instant.beq b a = false := by
  cases hba : Instant.beq b a
  · rfl
  · have := Instant.beq_true_symm hba
    rw [h] at this
    exact absurd this (by simp)

/-- C3: two Instants are equal exactly when their seconds and nanosecond
fractions agree and either both magnitudes are exactly zero (the era is
then ignored) or their eras agree as well; in particular every
zero-magnitude Instant equals every other zero-magnitude Instant
regardless of the stored era. -/
theorem instant_eq_iff (a b : Instant) :
    Instant.beq a b = true ↔
      (a.secs = b.secs ∧ a.nanos = b.nanos ∧
        ((a.secs = 0 ∧ a.nanos = 0) ∨ a.era = b.era)) :=
  Instant.beq_iff a b

/-- C4 counterexample: the two zero-magnitude instants of opposite eras
are equal under the implemented equality, yet the derived comparison
orders the Past one strictly below the Present one, so the comparison is
not consistent with equality. -/
theorem instant_ord_eq_inconsistency :
    Instant.beq (Instant.new 0 0 Era.Past) (Instant.new 0 0 Era.Present) = true ∧
    Instant.ltb (Instant.new 0 0 Era.Past) (Instant.new 0 0 Era.Present) = true := by
  decide

/-- C4 (amended): the derived comparison is transitive and total, every
Past-era instant is strictly below every Present-era instant, within one
era instants order by ascending magnitude, and two equal instants of the
same era are never strictly ordered; consistency with equality fails
only on the cross-era zero-magnitude pairs. -/
theorem instant_ord_amended (a b c : Instant) :
    (Instant.ltb a b = true → Instant.ltb b c = true → Instant.ltb a c = true) ∧
    (Instant.ltb a b = true ∨ Instant.ltb b a = true ∨
      (a.era = b.era ∧ a.duration = b.duration)) ∧
    (a.era = Era.Past → b.era = Era.Present → Instant.ltb a b = true) ∧
    (a.era = b.era → a.duration.nanos < NANOS_PER_SEC →
      b.duration.nanos < NANOS_PER_SEC →
      (Instant.ltb a b = true ↔ a.duration.toNanos < b.duration.toNanos)) ∧
    (Instant.beq a b = true → a.era = b.era → ¬ Instant.ltb a b = true) := by
  obtain ⟨ae, s1, n1⟩ := a
  obtain ⟨be, s2, n2⟩ := b
  obtain ⟨ce, s3, n3⟩ := c
  simp only [Instant.ltb_iff, Instant.beq_iff, Duration.cmp_lt_iff,
    Duration.mk.injEq, Instant.secs_def, Instant.nanos_def,
    Duration.toNanos, NANOS_PER_SEC]
  cases ae <;> cases be <;> cases ce <;> simp_all <;> omega

/-- Witness for instant_ord_amended: transitivity, the Past-below-Present
law, magnitude ordering within the Present era, and irreflexivity at an
equal same-era pair, each at concrete instants. -/
theorem instant_ord_amended_witness :
    Instant.ltb (Instant.new 1 0 Era.Past) (Instant.new 3 0 Era.Past) = true ∧
    Instant.ltb (Instant.new 1 0 Era.Past) (Instant.new 2 0 Era.Present) = true ∧
    (Instant.ltb (Instant.new 1 0 Era.Present) (Instant.new 2 0 Era.Present) = true ↔
      (Instant.new 1 0 Era.Present).duration.toNanos <
        (Instant.new 2 0 Era.Present).duration.toNanos) ∧
    ¬ Instant.ltb (Instant.new 5 5 Era.Past) (Instant.new 5 5 Era.Past) = true :=
  ⟨(instant_ord_amended (Instant.new 1 0 Era.Past) (Instant.new 2 0 Era.Past)
      (Instant.new 3 0 Era.Past)).1 (by decide) (by decide),
   (instant_ord_amended (Instant.new 1 0 Era.Past) (Instant.new 2 0 Era.Present)
      (Instant.new 0 0 Era.Past)).2.2.1 rfl rfl,
   (instant_ord_amended (Instant.new 1 0 Era.Present) (Instant.new 2 0 Era.Present)
      (Instant.new 0 0 Era.Past)).2.2.2.1 rfl (by decide) (by decide),
   (instant_ord_amended (Instant.new 5 5 Era.Past) (Instant.new 5 5 Era.Past)
      (Instant.new 0 0 Era.Past)).2.2.2.2 (by decide) rfl⟩

/-- C10: for two Past-era instants of nonzero magnitude, the derived
comparison orders them by ascending stored magnitude, so the
chronologically earlier instant (the larger offset before the epoch)
compares as the greater of the two. -/
theorem past_ordering_by_magnitude (a b : Instant)
    (ha : a.era = Era.Past) (hb : b.era = Era.Past)
    (han : a.duration.nanos < NANOS_PER_SEC) (hbn : b.duration.nanos < NANOS_PER_SEC)
    (ha0 : a.duration.toNanos ≠ 0) (hb0 : b.duration.toNanos ≠ 0) :
    Instant.ltb a b = true ↔ a.duration.toNanos < b.duration.toNanos := by
  rw [Instant.ltb_iff, ha, hb, Duration.toNanos_lt_iff han hbn]
  simp [Duration.cmp_lt_iff]

/-- Witness for past_ordering_by_magnitude at the instants one and two
seconds before the epoch. -/
theorem past_ordering_by_magnitude_witness :
    Instant.ltb (Instant.new 1 0 Era.Past) (Instant.new 2 0 Era.Past) = true :=
  (past_ordering_by_magnitude (Instant.new 1 0 Era.Past) (Instant.new 2 0 Era.Past)
    rfl rfl (by decide) (by decide) (by decide) (by decide)).mpr (by decide)

lemma Duration.toSecsQ_eq (d : Duration) :
    d.toSecsQ = (d.toNanos : ℚ) * (1 / 1000000000) := by
  simp only [Duration.toSecsQ, Duration.toNanos, NANOS_PER_SEC]
  push_cast
  ring

lemma Duration.add_toNanos (a b : Duration) :
    (Duration.add a b).toNanos = a.toNanos + b.toNanos := by
  rw [Duration.add, Duration.new_toNanos]
  simp only [Duration.toNanos]
  ring

lemma Duration.toSecsQ_add (a b : Duration) :
    (Duration.add a b).toSecsQ = a.toSecsQ + b.toSecsQ := by
  rw [Duration.toSecsQ_eq, Duration.toSecsQ_eq, Duration.toSecsQ_eq,
    Duration.add_toNanos]
  push_cast
  ring

lemma Duration.add_comm' (a b : Duration) :
    Duration.add a b = Duration.add b a := by
  simp [Duration.add, Nat.add_comm]

lemma Duration.cmp_gt_iff_lt (a b : Duration) :
    Duration.cmp a b = Ordering.gt ↔ Duration.cmp b a = Ordering.lt := by
  rw [Duration.cmp_gt_iff, Duration.cmp_lt_iff]

lemma Duration.sub?_isSome_of_cmp {a b : Duration}
    (h : Duration.cmp b a = Ordering.lt) :
    ∃ c, Duration.sub? a b = some c := by
  rw [Duration.cmp_lt_iff] at h
  unfold Duration.sub?
  split_ifs <;> first | exact ⟨_, rfl⟩ | (exfalso; omega)

/-- C5: instant-minus-instant returns exactly zero whenever the two
instants are equal under the implemented equality (including the
cross-era zero-magnitude pair), and when the two eras differ it returns
the sum of the two magnitudes in seconds, negated exactly when the
right-hand operand is the Present-era one. -/
theorem sub_instant_cases (a b : Instant) :
    (Instant.beq a b = true → Instant.subInstant a b = some 0) ∧
    (a.era ≠ b.era →
      Instant.subInstant a b =
        some ((if b.era = Era.Present then (-1 : ℚ) else 1) *
          (a.duration.toSecsQ + b.duration.toSecsQ))) := by
  constructor
  · intro h
    simp [Instant.subInstant, h]
  · intro hne
    by_cases hb : Instant.beq a b = true
    · have h0 := (Instant.beq_iff a b).mp hb
      have h1 : a.duration.secs = b.duration.secs := h0.1
      have h2 : a.duration.nanos = b.duration.nanos := h0.2.1
      have hz : a.duration.secs = 0 ∧ a.duration.nanos = 0 := by
        rcases h0.2.2 with h | h
        · exact ⟨h.1, h.2⟩
        · exact absurd h hne
      have hz1 : b.duration.secs = 0 := h1.symm.trans hz.1
      have hz2 : b.duration.nanos = 0 := h2.symm.trans hz.2
      simp [Instant.subInstant, hb, Duration.toSecsQ, hz.1, hz.2, hz1, hz2]
    · have hbf : Instant.beq a b = false := by
        cases h : Instant.beq a b
        · rfl
        · exact absurd h hb
      simp only [Instant.subInstant, hbf, Bool.false_eq_true, if_false, hne,
        Duration.toSecsQ_add]
      split_ifs <;> simp

/-- Witness for sub_instant_cases: the cross-era zero-magnitude pair and
a concrete cross-era pair one and two seconds around the epoch. -/
theorem sub_instant_cases_witness :
    Instant.subInstant (Instant.new 0 0 Era.Past) (Instant.new 0 0 Era.Present) =
      some 0 ∧
    Instant.subInstant (Instant.new 1 0 Era.Past) (Instant.new 2 0 Era.Present) =
      some ((if (Instant.new 2 0 Era.Present).era = Era.Present then (-1 : ℚ) else 1) *
        ((Instant.new 1 0 Era.Past).duration.toSecsQ +
          (Instant.new 2 0 Era.Present).duration.toSecsQ)) :=
  ⟨(sub_instant_cases (Instant.new 0 0 Era.Past) (Instant.new 0 0 Era.Present)).1
      (by decide),
   (sub_instant_cases (Instant.new 1 0 Era.Past) (Instant.new 2 0 Era.Present)).2
      (by decide)⟩

/-- C8: instant-minus-instant is antisymmetric, and the self-difference
of any Instant is exactly zero. -/
theorem sub_instant_antisymm (i j : Instant) :
    Instant.subInstant i j =
      Option.map (fun q : ℚ => -q) (Instant.subInstant j i) ∧
    Instant.subInstant i i = some 0 := by
  refine ⟨?_, by simp [Instant.subInstant, Instant.beq_refl i]⟩
  by_cases hb : Instant.beq i j = true
  · have hb' := Instant.beq_true_symm hb
    simp [Instant.subInstant, hb, hb']
  · have hbf : Instant.beq i j = false := by
      cases h : Instant.beq i j
      · rfl
      · exact absurd h hb
    have hbf' : Instant.beq j i = false := Instant.beq_false_symm hbf
    by_cases he : i.era = j.era
    · have he' : j.era = i.era := he.symm
      have hd : ¬(i.duration.secs = j.duration.secs ∧
          i.duration.nanos = j.duration.nanos) := by
        intro hcon
        have ht : Instant.beq i j = true := by
          rw [Instant.beq_iff]
          exact ⟨hcon.1, hcon.2, Or.inr he⟩
        rw [hbf] at ht
        exact absurd ht (by simp)
      rcases hcmp : Duration.cmp i.duration j.duration with _ | _ | _
      · -- the left duration is lexicographically smaller
        have hgt1 : Instant.gtb i j = false := by
          cases h : Instant.gtb i j
          · rfl
          · exfalso
            rcases (Instant.gtb_iff i j).mp h with ⟨hP, hp⟩ | ⟨_, hg⟩
            · rw [hP, hp] at he
              exact absurd he (by simp)
            · rw [hcmp] at hg
              exact absurd hg (by simp)
        have hgt2 : Instant.gtb j i = true := by
          rw [Instant.gtb_iff]
          exact Or.inr ⟨he', (Duration.cmp_gt_iff_lt _ _).mpr hcmp⟩
        obtain ⟨c, hc⟩ := Duration.sub?_isSome_of_cmp hcmp
        simp only [Instant.subInstant, hbf, hbf', hgt1, hgt2, hc, he,
          Bool.false_eq_true, if_false, Option.map_some']
        cases hj : j.era <;> simp [hj]
      · exfalso
        exact hd ((Duration.cmp_eq_iff _ _).mp hcmp)
      · -- the left duration is lexicographically greater
        have hlt : Duration.cmp j.duration i.duration = Ordering.lt :=
          (Duration.cmp_gt_iff_lt _ _).mp hcmp
        have hgt1 : Instant.gtb i j = true := by
          rw [Instant.gtb_iff]
          exact Or.inr ⟨he, hcmp⟩
        have hgt2 : Instant.gtb j i = false := by
          cases h : Instant.gtb j i
          · rfl
          · exfalso
            rcases (Instant.gtb_iff j i).mp h with ⟨hP, hp⟩ | ⟨_, hg⟩
            · rw [hP, hp] at he
              exact absurd he (by simp)
            · have hlt2 := (Duration.cmp_gt_iff_lt _ _).mp hg
              rw [hcmp] at hlt2
              exact absurd hlt2 (by simp)
        obtain ⟨c, hc⟩ := Duration.sub?_isSome_of_cmp hlt
        simp only [Instant.subInstant, hbf, hbf', hgt1, hgt2, hc, he,
          Bool.false_eq_true, if_false, Option.map_some']
        cases hj : j.era <;> simp [hj]
    · have he'' : ¬(j.era = i.era) := fun h => he h.symm
      cases hi : i.era <;> cases hj : j.era
      · exact absurd (hi.trans hj.symm) he
      · simp [Instant.subInstant, hbf, hbf', he, he'', hi, hj,
          Duration.add_comm' j.duration i.duration]
      · simp [Instant.subInstant, hbf, hbf', he, he'', hi, hj,
          Duration.add_comm' j.duration i.duration]
      · exact absurd (hi.trans hj.symm) he

/-- C7 counterexample: reading 0.6 seconds (s = 0, n = 600000000) back
through from_precise_seconds yields the zero instant: rounding the
seconds value up makes the nanosecond remainder negative, the saturating
u32 cast collapses it to 0, and the truncating u64 cast keeps the whole
seconds at 0, so the reconstruction is off by 0.6 s, far beyond the
claimed one nanosecond. -/
theorem from_precise_seconds_cex :
    (Instant.from_precise_seconds
        ((0 : ℚ) + (600000000 : ℚ) * (1 / 1000000000)) Era.Present).secs = 0 ∧
    (Instant.from_precise_seconds
        ((0 : ℚ) + (600000000 : ℚ) * (1 / 1000000000)) Era.Present).nanos = 0 := by
  have key : Instant.from_precise_seconds
      ((0 : ℚ) + (600000000 : ℚ) * (1 / 1000000000)) Era.Present =
      Instant.new 0 0 Era.Present := by
    have hv : ((0 : ℚ) + (600000000 : ℚ) * (1 / 1000000000)) = 3 / 5 := by
      norm_num
    rw [hv]
    simp only [Instant.from_precise_seconds]
    have h1 : roundQ (3 / 5 : ℚ) = 1 := by
      unfold roundQ
      rw [if_pos (by norm_num)]
      norm_num [Int.floor_eq_iff]
    rw [h1]
    have h2 : ((3 : ℚ) / 5 - ((1 : ℤ) : ℚ)) * 1e9 = -400000000 := by
      push_cast
      norm_num
    rw [h2]
    have h3 : roundQ (-400000000 : ℚ) = -400000000 := by
      unfold roundQ
      rw [if_neg (by norm_num)]
      norm_num
    rw [h3]
    have h4 : castU32 (-400000000) = 0 := by norm_num [castU32]
    have h5 : castU64 (3 / 5 : ℚ) = 0 := by
      unfold castU64
      rw [if_neg (by norm_num)]
      have hf : ⌊(3 : ℚ) / 5⌋ = 0 := by norm_num [Int.floor_eq_iff]
      rw [hf]
      simp
    rw [h4, h5]
    rfl
  rw [key]
  exact ⟨rfl, rfl⟩

/-- C7 (amended): for a nanosecond fraction below half a second (so that
the seconds value rounds down) and a seconds count within the u64 range,
from_precise_seconds reconstructs the triple (s, n, p) exactly in the
exact-rational semantics of the float arithmetic; for fractions of half
a second and above the reconstruction fails as the counterexample shows. -/
theorem from_precise_seconds_roundtrip (s n : Nat) (p : Era)
    (hs : s < 2 ^ 64) (hn : n < 500000000) :
    Instant.from_precise_seconds ((s : ℚ) + (n : ℚ) * (1 / 1000000000)) p =
      Instant.new s n p := by
  set v : ℚ := (s : ℚ) + (n : ℚ) * (1 / 1000000000) with hv
  have hnq : (n : ℚ) < 500000000 := by exact_mod_cast hn
  have hn9 : (n : ℚ) * (1 / 1000000000) < 1 / 2 := by
    have hm := mul_lt_mul_of_pos_right hnq
      (show (0 : ℚ) < 1 / 1000000000 by norm_num)
    calc (n : ℚ) * (1 / 1000000000)
        < 500000000 * (1 / 1000000000) := hm
      _ = 1 / 2 := by norm_num
  have hn0 : 0 ≤ (n : ℚ) * (1 / 1000000000) := by positivity
  have hv0 : 0 ≤ v := by rw [hv]; positivity
  have hr : roundQ v = (s : ℤ) := by
    unfold roundQ
    rw [if_pos hv0, Int.floor_eq_iff]
    constructor
    · rw [hv]; push_cast; linarith
    · rw [hv]; push_cast; linarith
  have hfloor : ⌊v⌋ = (s : ℤ) := by
    rw [Int.floor_eq_iff]
    constructor
    · rw [hv]; push_cast; linarith
    · rw [hv]; push_cast; linarith
  simp only [Instant.from_precise_seconds]
  rw [hr]
  have hnanos : (v - ((s : ℤ) : ℚ)) * 1e9 = (n : ℚ) := by
    rw [hv]
    push_cast
    have he : (1e9 : ℚ) = 1000000000 := by norm_num
    rw [he]
    ring
  rw [hnanos]
  have hrn : roundQ (n : ℚ) = (n : ℤ) := by
    unfold roundQ
    rw [if_pos (by positivity), Int.floor_eq_iff]
    constructor
    · push_cast; linarith
    · push_cast; linarith
  rw [hrn]
  have hc32 : castU32 (n : ℤ) = n := by
    unfold castU32
    rw [if_neg (by omega)]
    simp only [Int.toNat_natCast]
    omega
  have hc64 : castU64 v = s := by
    unfold castU64
    rw [if_neg (by linarith), hfloor]
    simp only [Int.toNat_natCast]
    omega
  rw [hc32, hc64]
  rfl

/-- Witness for from_precise_seconds_roundtrip at the doc-test value of
159 seconds and 159 nanoseconds. -/
theorem from_precise_seconds_roundtrip_witness :
    Instant.from_precise_seconds
        (((159 : Nat) : ℚ) + ((159 : Nat) : ℚ) * (1 / 1000000000)) Era.Present =
      Instant.new 159 159 Era.Present :=
  from_precise_seconds_roundtrip 159 159 Era.Present (by decide) (by decide)

lemma Duration.sub?_nanos_lt {a b c : Duration} (ha : a.nanos < NANOS_PER_SEC)
    (h : Duration.sub? a b = some c) : c.nanos < NANOS_PER_SEC := by
  unfold Duration.sub? at h
  split_ifs at h with h1 h2 h3 <;>
    (rw [Option.some.injEq] at h
     subst h
     simp only [NANOS_PER_SEC] at *
     omega)

/-- C9: every Instant produced by the constructors or the span operators
has a normalized nanosecond fraction below one second: Instant::new
carries any excess nanoseconds into whole seconds preserving the total
value, from_precise_seconds normalizes through the same constructor, and
the two span operators preserve the invariant on every value they
return (a panicking path returns no Instant at all). -/
theorem instants_nanos_normalized (s n : Nat) (e : Era) (i : Instant)
    (d : Duration) (v : ℚ) :
    ((Instant.new s n e).nanos < NANOS_PER_SEC ∧
      (Instant.new s n e).secs * NANOS_PER_SEC + (Instant.new s n e).nanos =
        s * NANOS_PER_SEC + n) ∧
    (Instant.from_precise_seconds v e).nanos < NANOS_PER_SEC ∧
    (i.nanos < NANOS_PER_SEC → ∀ j, Instant.add i d = some j →
      j.nanos < NANOS_PER_SEC) ∧
    (i.nanos < NANOS_PER_SEC → ∀ j, Instant.sub i d = some j →
      j.nanos < NANOS_PER_SEC) := by
  refine ⟨⟨Duration.new_nanos_lt s n, ?_⟩, Duration.new_nanos_lt _ _, ?_, ?_⟩
  · simpa [Instant.new, Duration.toNanos] using Duration.new_toNanos s n
  · intro hi j hj
    unfold Instant.add at hj
    by_cases h0 : d.as_secs = 0 ∧ d.subsec_nanos = 0
    · rw [if_pos h0, Option.some.injEq] at hj
      subst hj
      exact hi
    · rw [if_neg h0] at hj
      cases he : i.era
      · simp only [he] at hj
        split_ifs at hj with hg
        · rcases hcs : checkedSub d.as_secs i.duration.as_secs with _ | sv
          · rw [hcs] at hj
            simp at hj
          · rw [hcs] at hj
            rcases hcn : checkedSub d.subsec_nanos i.duration.subsec_nanos with _ | nv
            · rw [hcn] at hj
              simp at hj
            · rw [hcn] at hj
              simp at hj
              subst hj
              exact Duration.new_nanos_lt _ _
        · rw [Option.map_eq_some'] at hj
          obtain ⟨c, hc, hj⟩ := hj
          subst hj
          exact Duration.sub?_nanos_lt hi hc
      · simp only [he, Option.some.injEq] at hj
        subst hj
        exact Duration.new_nanos_lt _ _
  · intro hi j hj
    unfold Instant.sub at hj
    by_cases h0 : d.as_secs = 0 ∧ d.subsec_nanos = 0
    · rw [if_pos h0, Option.some.injEq] at hj
      subst hj
      exact hi
    · rw [if_neg h0] at hj
      cases he : i.era
      · simp only [he, Option.some.injEq] at hj
        subst hj
        exact Duration.new_nanos_lt _ _
      · simp only [he] at hj
        split_ifs at hj with hg
        · rcases hcs : checkedSub d.as_secs i.duration.as_secs with _ | sv
          · rw [hcs] at hj
            simp at hj
          · rw [hcs] at hj
            rcases hcn : checkedSub d.subsec_nanos i.duration.subsec_nanos with _ | nv
            · rw [hcn] at hj
              simp at hj
            · rw [hcn] at hj
              simp at hj
              subst hj
              exact Duration.new_nanos_lt _ _
        · rw [Option.map_eq_some'] at hj
          obtain ⟨c, hc, hj⟩ := hj
          subst hj
          exact Duration.sub?_nanos_lt hi hc

/-- Witness for instants_nanos_normalized: the constructor with an
excess fraction of two seconds, from_precise_seconds at zero, a Present
addition, and an era-flipping subtraction. -/
theorem instants_nanos_normalized_witness :
    ((Instant.new 1 2000000001 Era.Present).nanos < NANOS_PER_SEC ∧
      (Instant.new 1 2000000001 Era.Present).secs * NANOS_PER_SEC +
        (Instant.new 1 2000000001 Era.Present).nanos =
          1 * NANOS_PER_SEC + 2000000001) ∧
    (Instant.from_precise_seconds 0 Era.Present).nanos < NANOS_PER_SEC ∧
    (Instant.new 2 0 Era.Present).nanos < NANOS_PER_SEC ∧
    (Instant.new 0 0 Era.Past).nanos < NANOS_PER_SEC :=
  ⟨(instants_nanos_normalized 1 2000000001 Era.Present
      (Instant.new 1 0 Era.Present) (Duration.new 1 0) 0).1,
   (instants_nanos_normalized 1 2000000001 Era.Present
      (Instant.new 1 0 Era.Present) (Duration.new 1 0) 0).2.1,
   (instants_nanos_normalized 1 2000000001 Era.Present
      (Instant.new 1 0 Era.Present) (Duration.new 1 0) 0).2.2.1
      (by decide) (Instant.new 2 0 Era.Present) (by decide),
   (instants_nanos_normalized 1 2000000001 Era.Present
      (Instant.new 1 0 Era.Present) (Duration.new 1 0) 0).2.2.2
      (by decide) (Instant.new 0 0 Era.Past) (by decide)⟩

/-- C1: the era-flip guard of Instant::add compares only whole seconds
(the nanosecond disjunct of the guard is unreachable), so adding the
span of 5 s 2 ns to the instant 5 s 10 ns before the epoch takes the
flip branch and panics on the unsigned nanosecond subtraction 2 - 10,
although the span's full magnitude is smaller than the instant's and
the result should stay in the Past era with magnitude 0 s 8 ns. -/
theorem add_flip_guard_eval :
    Instant.add (Instant.new 5 10 Era.Past) (Duration.new 5 2) = none := by
  decide

/-- C2: a nanosecond underflow is reachable: subtracting the span 0 s
3 ns from the instant 0 s 5 ns after the epoch takes the era-flip branch
of Instant::sub and performs the unsigned subtraction 3 - 5, a panic,
although the operation should return the instant 0 s 2 ns after the
epoch. -/
theorem sub_underflow_eval :
    Instant.sub (Instant.new 0 5 Era.Present) (Duration.new 0 3) = none := by
  decide

/-- C6: the round trip Subtract(Add(i, d), d) fails for i the instant
0 s 5 ns after the epoch and d the span 3 s 1 ns: the addition succeeds,
but subtracting d back from the sum panics in the era-flip branch of
Instant::sub instead of returning i. -/
theorem roundtrip_panic_eval :
    Instant.add (Instant.new 0 5 Era.Present) (Duration.new 3 1) =
      some (Instant.new 3 6 Era.Present) ∧
    Instant.sub (Instant.new 3 6 Era.Present) (Duration.new 3 1) = none := by
  decide
